import Mathlib

set_option maxRecDepth 8192

/- Shallow embedding of the request-time retrieval-and-grounding pipeline of
the RAG demo server (the POST /ask route of the Express server, together with
its helper functions `isVagueQuestion`, `expandQuestionSynonyms`,
`tokenizeMeaningful` and the STOPWORDS table).

Modelling choices:
* JavaScript strings are modelled as `List Char`; `.trim()`, `.toLowerCase()`
  and the regular-expression tests are given explicit executable definitions
  over character lists (ASCII-faithful; the fixed phrases and trigger words of
  the server are all ASCII).
* Cosine distances are modelled as rationals (`ℚ`); the code only ever
  compares them, so the floating-point representation is immaterial to the
  control flow verified here.
* The two external collaborators are parameters of the handler: the vector
  index is a function from the (expanded) query string to the list of
  (document, distance) pairs it returns for K = 3, and the completion model is
  a function from the user prompt (the system prompt is the fixed constant of
  `buildSystemPrompt`) to the generated text.  A branch whose value is proved
  for every such function is a branch that does not consult the collaborator.
-/

/-- The apostrophe character (code point 39), used by the fixed phrases of the
server such as the canonical refusal phrase. -/
def apostropheChar : Char := Char.ofNat 39

/-- ASCII whitespace, as trimmed by `String.prototype.trim` (space, tab,
newline, carriage return, vertical tab, form feed; the additional Unicode
space characters trimmed by JavaScript do not occur in the fixed phrases nor
in the concrete inputs considered here). -/
def isSpaceChar (c : Char) : Bool :=
  c == ' ' || c == '\t' || c == '\n' || c == '\r' || c == Char.ofNat 11 || c == Char.ofNat 12

/-- Model of `q.trim()`: drop whitespace from both ends. -/
def trimList (s : List Char) : List Char :=
  ((s.dropWhile isSpaceChar).reverse.dropWhile isSpaceChar).reverse

/-- ASCII lowering of one character, the fragment of `toLowerCase` exercised
by the server's ASCII trigger words. -/
def lowerChar (c : Char) : Char :=
  if 'A' ≤ c && c ≤ 'Z' then Char.ofNat (c.toNat + 32) else c

/-- Model of `q.toLowerCase()`. -/
def lowerList (s : List Char) : List Char := s.map lowerChar

/-- JavaScript regular-expression word character (`\w` = `[A-Za-z0-9_]`),
which determines the word boundaries `\b` used by the server's patterns. -/
def isWordChar (c : Char) : Bool :=
  ('a' ≤ c && c ≤ 'z') || ('A' ≤ c && c ≤ 'Z') || ('0' ≤ c && c ≤ '9') || c == '_'

/-- A word boundary `\b` next to a word-character literal holds when the
neighbouring character is absent or is not a word character. -/
def boundaryOk : Option Char → Bool
  | none => true
  | some c => !isWordChar c

/-- The literal `w` matches at the head of `s` with a trailing word boundary.
All the server's pattern alternatives start and end with word characters, so a
leading/trailing `\b` is exactly a non-word (or absent) neighbour. -/
def matchesHere (w s : List Char) : Bool :=
  w.isPrefixOf s && boundaryOk (s.drop w.length).head?

/-- Scan of `s` for a whole-word occurrence of `w`; `prev` is the character
preceding the current position (`none` at the start of the string). -/
def hasWholeWordAux (w : List Char) (prev : Option Char) : List Char → Bool
  | [] => boundaryOk prev && matchesHere w []
  | c :: rest => (boundaryOk prev && matchesHere w (c :: rest)) || hasWholeWordAux w (some c) rest

/-- Semantics of `new RegExp("\\b" + w + "\\b").test(s)` for a literal `w`
whose first and last characters are word characters. -/
def hasWholeWord (w s : List Char) : Bool := hasWholeWordAux w none s

/-- Semantics of `/\b(w1|w2|...)\b/.test(s)`: an alternation of literals
matches somewhere iff some alternative matches somewhere. -/
def anyWholeWord (ws : List (List Char)) (s : List Char) : Bool :=
  ws.any (fun w => hasWholeWord w s)

def thisW : List Char := "this".toList

def thatW : List Char := "that".toList

def itW : List Char := "it".toList

def hereW : List Char := "here".toList

def thereW : List Char := "there".toList

def thisOneW : List Char := "this one".toList

/-- The alternatives of the deictic pattern `/\b(this|that|it|here|there|this one)\b/`
tested by `isVagueQuestion`. -/
def deicticWords : List (List Char) := [thisW, thatW, itW, hereW, thereW, thisOneW]

/-- Source function `isVagueQuestion` (server lines 70-76): trimmed length
below 8, or a whole-word deictic match on the lowercased trimmed question. -/
def isVagueQuestion (q : List Char) : Bool :=
  let trimmed := trimList q
  if trimmed.length < 8 then true
  else anyWholeWord deicticWords (lowerList trimmed)

/-- Source constant STOPWORDS (server lines 26-60). -/
def stopwords : List (List Char) :=
  (["the", "and", "for", "with", "you", "your", "are", "but", "not", "from",
    "this", "that", "it", "here", "there", "what", "is", "about", "please",
    "tell", "me", "a", "an", "of", "to", "in", "on", "at", "by", "be", "we",
    "they", "i"]).map String.toList

/-- The replacement `/[^a-z0-9\s]/g → " "` applied after lowercasing in
`tokenizeMeaningful`. -/
def keepAlnumChar (c : Char) : Char :=
  if ('a' ≤ c && c ≤ 'z') || ('0' ≤ c && c ≤ '9') || isSpaceChar c then c else ' '

/-- Accumulating splitter for `.split(/\s+/)`; empty fragments are irrelevant
downstream because the length filter discards them. -/
def splitWsAux (acc : List Char) : List Char → List (List Char)
  | [] => if acc = [] then [] else [acc.reverse]
  | c :: rest =>
    if isSpaceChar c then
      if acc = [] then splitWsAux [] rest else acc.reverse :: splitWsAux [] rest
    else splitWsAux (c :: acc) rest

/-- Split a character list on whitespace runs. -/
def splitWs (s : List Char) : List (List Char) := splitWsAux [] s

/-- Source function `tokenizeMeaningful` (server lines 62-68): lowercase,
blank out non-alphanumerics, split on whitespace, keep words longer than two
characters that are not stopwords. -/
def tokenizeMeaningful (text : List Char) : List (List Char) :=
  (splitWs ((lowerList text).map keepAlnumChar)).filter
    (fun w => decide (2 < w.length) && !(stopwords.contains w))

def satW : List Char := "sat".toList

def saturdayW : List Char := "saturday".toList

def sunW : List Char := "sun".toList

def sundayW : List Char := "sunday".toList

def weekendW : List Char := "weekend".toList

def weekendsW : List Char := "weekends".toList

def carW : List Char := "car".toList

def carsW : List Char := "cars".toList

def vehicleW : List Char := "vehicle".toList

def vehiclesW : List Char := "vehicles".toList

def driveW : List Char := "drive".toList

def openW : List Char := "open".toList

def hoursW : List Char := "hours".toList

def openingW : List Char := "opening".toList

def closeW : List Char := "close".toList

def closingW : List Char := "closing".toList

def satApp : List Char := " saturday weekend".toList

def sunApp : List Char := " sunday weekend".toList

def weekendApp : List Char := " saturday sunday".toList

def carApp : List Char := " parking lot".toList

def hoursApp : List Char := " hours open opening times".toList

/-- Trigger `/\b(sat|saturday)\b/` of `expandQuestionSynonyms`. -/
def trigSat (s : List Char) : Bool := anyWholeWord [satW, saturdayW] s

/-- Trigger `/\b(sun|sunday)\b/`. -/
def trigSun (s : List Char) : Bool := anyWholeWord [sunW, sundayW] s

/-- Trigger `/\b(weekend|weekends)\b/`. -/
def trigWeekend (s : List Char) : Bool := anyWholeWord [weekendW, weekendsW] s

/-- Trigger `/\b(car|cars|vehicle|vehicles|drive)\b/`. -/
def trigCar (s : List Char) : Bool := anyWholeWord [carW, carsW, vehicleW, vehiclesW, driveW] s

/-- Trigger `/\b(open|hours|opening|close|closing)\b/`. -/
def trigHours (s : List Char) : Bool :=
  anyWholeWord [openW, hoursW, openingW, closeW, closingW] s

/-- Source function `expandQuestionSynonyms` (server lines 92-110): test the
five triggers against the lowercased original question and append the matching
expansions, in source order, after the unchanged text. -/
def expandQuestionSynonyms (q : List Char) : List Char :=
  let lower := lowerList q
  let out1 := if trigSat lower then q ++ satApp else q
  let out2 := if trigSun lower then out1 ++ sunApp else out1
  let out3 := if trigWeekend lower then out2 ++ weekendApp else out2
  let out4 := if trigCar lower then out3 ++ carApp else out3
  if trigHours lower then out4 ++ hoursApp else out4

/-- The i-th trigger of the synonym table, as a predicate on a question
(tested, as in the source, against its lowercasing). -/
def ruleTest : Nat → List Char → Bool
  | 0, q => trigSat (lowerList q)
  | 1, q => trigSun (lowerList q)
  | 2, q => trigWeekend (lowerList q)
  | 3, q => trigCar (lowerList q)
  | 4, q => trigHours (lowerList q)
  | _ + 5, _ => false

/-- The set (as a canonically sorted list) of distinct synonym-table triggers
matching a question. -/
def firedTriggers (q : List Char) : List Nat :=
  (List.range 5).filter (fun i => ruleTest i q)

/-- A retrieved document: page content plus its `metadata.source` filename
(the empty list standing for an absent/empty source, which the server renders
as "unknown"). -/
structure Doc where
  pageContent : List Char
  source : List Char
deriving DecidableEq

/-- One entry of the `sources` array returned to the caller. -/
structure SourceRef where
  id : Nat
  source : List Char
deriving DecidableEq

/-- The JSON response of POST /ask: either a non-2xx error or an
answer-plus-sources payload. -/
inductive Response where
  | error : List Char → Response
  | ok : List Char → List SourceRef → Response
deriving DecidableEq

/-- COSINE_DISTANCE_MAX, the literal 0.55 of server line 222 (written with
`mkRat` so that comparisons evaluate by kernel reduction). -/
def Dmax : ℚ := mkRat 55 100

/-- K, the retrieval depth (server line 214). -/
def topK : Nat := 3

/-- The fixed clarification message of the vagueness branch. -/
def clarifyMsg : List Char :=
  "Could you clarify your question? For example: \"What are your hours?\" or \"Is outside food allowed?\"".toList

/-- The canonical refusal phrase "I don't know". -/
def canonList : List Char := "I don".toList ++ [apostropheChar] ++ "t know".toList

/-- The one misspelling "I don't now" repaired by the server. -/
def typoList : List Char := "I don".toList ++ [apostropheChar] ++ "t now".toList

/-- The fixed refusal answer of the distance-gate branch. -/
def refuseMsg : List Char :=
  "I don".toList ++ [apostropheChar] ++ "t know based on the provided documents.".toList

/-- The 400 error body for a missing question. -/
def missingMsg : List Char := "Missing question".toList

/-- Placeholder filename for documents without a source. -/
def unknownSrc : List Char := "unknown".toList

/-- Stable insertion of a (document, distance) pair into a list sorted by
ascending distance, modelling `pairs.sort((a, b) => a[1] - b[1])`. -/
def insertByDist (x : Doc × ℚ) : List (Doc × ℚ) → List (Doc × ℚ)
  | [] => [x]
  | y :: ys => if x.2 ≤ y.2 then x :: y :: ys else y :: insertByDist x ys

/-- Stable sort by ascending distance (server line 218). -/
def sortByDist : List (Doc × ℚ) → List (Doc × ℚ)
  | [] => []
  | x :: xs => insertByDist x (sortByDist xs)

/-- Server lines 231-239: filter the sorted pairs by the distance gate, cap at
K, keep the documents; if that list is empty while `pairs` is not, fall back
to the single best document. -/
def computeResults (pairs : List (Doc × ℚ)) : List Doc :=
  let results := ((pairs.filter (fun p => p.2 ≤ Dmax)).take topK).map Prod.fst
  match pairs, results with
  | p :: _, [] => [p.1]
  | _, _ => results

/-- Server rendering of `doc.metadata?.source || "unknown"`. -/
def srcName (d : Doc) : List Char := if d.source = [] then unknownSrc else d.source

/-- Numbered context blocks `[i+1] (src)\n<content>` (server lines 251-254),
starting at index `i`. -/
def renderFrom (i : Nat) : List Doc → List (List Char)
  | [] => []
  | d :: rest =>
    (('[' :: Nat.toDigits 10 (i + 1)) ++ "] (".toList ++ srcName d ++ ")".toList
      ++ ('\n' :: d.pageContent)) :: renderFrom (i + 1) rest

/-- The numbered evidence blocks for the prompt. -/
def renderNumbered (results : List Doc) : List (List Char) := renderFrom 0 results

/-- Model of `numbered.join("\n\n")`. -/
def joinBlocks : List (List Char) → List Char
  | [] => []
  | [b] => b
  | b :: rest => b ++ "\n\n".toList ++ joinBlocks rest

/-- The fixed tail of the user prompt (requirements section). -/
def promptTail : List Char :=
  "\n\nRequirements:\n- Answer using only the context.\n- If missing, say \"I don".toList
    ++ [apostropheChar] ++ "t know.\"\n- Include citations like [1], [2].\n".toList

/-- The user prompt template of server lines 258-266. -/
def buildUserPrompt (question : List Char) (numbered : List (List Char)) : List Char :=
  "Question: ".toList ++ question ++ "\nContext blocks:\n".toList
    ++ joinBlocks numbered ++ promptTail

/-- Server lines 277-280: `answer.replace(/^I don't now/, "I don't know")`. -/
def normalizeAnswer (answer : List Char) : List Char :=
  if typoList.isPrefixOf answer then canonList ++ answer.drop typoList.length else answer

def isDigitChar (c : Char) : Bool := '0' ≤ c && c ≤ '9'

/-- Decimal value of a digit run, as computed by `Number` on the matched
digits (digit runs of astronomical length, which `Number` would overflow to
infinity and the server would filter out, are out of scope: they cannot cite a
block either way). -/
def digitsVal (ds : List Char) : Nat := ds.foldl (fun acc c => acc * 10 + (c.toNat - 48)) 0

/-- All matches of the global pattern `/\[(\d+)\]/g` in left-to-right order
(server lines 297-301): at each `[` the match succeeds iff one or more digits
followed by `]` come next; on failure scanning resumes one character later.
On success the regex engine resumes after the closing bracket, while this
scanner resumes right after the `[`; the two agree because the skipped span
(digits and a bracket) contains no `[` and so can start no further match. -/
def extractCitations : List Char → List Nat
  | [] => []
  | c :: rest =>
    if c == '[' then
      match rest.dropWhile isDigitChar with
      | ']' :: _ =>
        if rest.takeWhile isDigitChar = [] then extractCitations rest
        else digitsVal (rest.takeWhile isDigitChar) :: extractCitations rest
      | _ => extractCitations rest
    else extractCitations rest

/-- The numbered source list `allSources` (server lines 291-294), starting at
index `i`. -/
def numberFrom (i : Nat) : List Doc → List SourceRef
  | [] => []
  | d :: rest => ⟨i + 1, srcName d⟩ :: numberFrom (i + 1) rest

/-- `allSources`: one SourceRef per evidence block, ids 1..N in evidence
order. -/
def allSourcesOf (results : List Doc) : List SourceRef := numberFrom 0 results

/-- `citedOnly` (server line 304): the sources whose id was cited in the
answer. -/
def citedOnlyOf (answer : List Char) (results : List Doc) : List SourceRef :=
  (allSourcesOf results).filter (fun s => (extractCitations answer).contains s.id)

/-- `base` (server line 305): the cited sources, or all sources when nothing
valid was cited (fail open). -/
def citationBase (answer : List Char) (results : List Doc) : List SourceRef :=
  if citedOnlyOf answer results = [] then allSourcesOf results else citedOnlyOf answer results

/-- The seen-set filter of server lines 308-313. -/
def dedupGo (seen : List (List Char)) : List SourceRef → List SourceRef
  | [] => []
  | s :: rest =>
    if s.source ∈ seen then dedupGo seen rest else s :: dedupGo (s.source :: seen) rest

/-- Deduplicate by filename, keeping the first occurrence. -/
def dedupBySource (l : List SourceRef) : List SourceRef := dedupGo [] l

/-- Server lines 288-314: the sources shown to the caller; empty when the
answer starts with the canonical refusal phrase. -/
def resolveSources (answer : List Char) (results : List Doc) : List SourceRef :=
  if canonList.isPrefixOf answer then [] else dedupBySource (citationBase answer results)

/-- Server lines 220-320 as acting on the sorted retrieval pairs: the
distance gate (`!bestDoc || bestDistance > COSINE_DISTANCE_MAX`), then
evidence assembly, prompt building, completion, typo repair and citation
resolution. -/
def gateAndAnswer (llm : List Char → List Char) (question : List Char)
    (pairs : List (Doc × ℚ)) : Response :=
  match pairs with
  | [] => Response.ok refuseMsg []
  | best :: restPairs =>
    if Dmax < best.2 then Response.ok refuseMsg []
    else
      Response.ok
        (normalizeAnswer (trimList (llm (buildUserPrompt question
          (renderNumbered (computeResults (best :: restPairs)))))))
        (resolveSources
          (normalizeAnswer (trimList (llm (buildUserPrompt question
            (renderNumbered (computeResults (best :: restPairs)))))))
          (computeResults (best :: restPairs)))

/-- The POST /ask handler (server lines 195-320), parameterized by the vector
index (`store`, the value of `similaritySearchWithScore` at K = 3) and the
completion model (`llm`, the generated text as a function of the user
prompt). -/
def askHandler (store : List Char → List (Doc × ℚ)) (llm : List Char → List Char)
    (rawQuestion : List Char) : Response :=
  let question := trimList rawQuestion
  if question = [] then Response.error missingMsg
  else if isVagueQuestion question then Response.ok clarifyMsg []
  else gateAndAnswer llm question (sortByDist (store (expandQuestionSynonyms question)))

/-- The five deictic words named by the specification ("this", "that", "it",
"here", "there"), as a whole-word test. -/
def deictic5 (s : List Char) : Bool := anyWholeWord [thisW, thatW, itW, hereW, thereW] s

/-- Claim-side definition, following the words of the specification for the
Query Guard: vague when the trimmed length is below 8, or when the deictic
whole-word pattern matches *with no other distinguishing content* — the last
qualifier read through the server's own notion of distinguishing content,
`tokenizeMeaningful` (all five deictic words are stopwords, so "no other
distinguishing content" is an empty meaningful-token list). -/
def vagueClaim (q : List Char) : Prop :=
  (trimList q).length < 8 ∨
    (deictic5 (lowerList (trimList q)) = true ∧ tokenizeMeaningful (trimList q) = [])

/-- The character preceding the scan position after walking over `pre`. -/
def prevOf (prev : Option Char) : List Char → Option Char
  | [] => prev
  | c :: rest => prevOf (some c) rest

/-- Concrete chunk used by the evaluated instances below. -/
def docHours : Doc := ⟨"Hours are 9 to 5.".toList, "faqs.txt".toList⟩

/-- A second chunk from the same file, for deduplication instances. -/
def docHours2 : Doc := ⟨"We open at 9.".toList, "faqs.txt".toList⟩

/-- A chunk from a different file. -/
def docPark : Doc := ⟨"Parking is free.".toList, "parking.txt".toList⟩

/-- A concrete non-empty, non-vague question. -/
def qHours : List Char := "what are your hours".toList

/-- A concrete vague (too short) question. -/
def vagueShortQ : List Char := "it".toList

/-- A long, content-rich question that still contains the deictic word
"this". -/
def contentfulDeicticQ : List Char := "what time does this facility open today".toList

/-- A non-vague question firing exactly the saturday synonym trigger. -/
def busyQ : List Char := "busy on sat".toList

/-- A completion collaborator returning the empty string. -/
def emptyLlm : List Char → List Char := fun _ => []

/-- A vector index whose only hit is far beyond the distance gate. -/
def farStore : List Char → List (Doc × ℚ) := fun _ => [(docHours, mkRat 9 10)]

/-- A vector index whose only hit passes the distance gate. -/
def nearStore : List Char → List (Doc × ℚ) := fun _ => [(docHours, mkRat 1 5)]

/-- A vector index returning two in-gate chunks from the same file. -/
def dupStore : List Char → List (Doc × ℚ) := fun _ => [(docHours, mkRat 1 5), (docHours2, mkRat 3 10)]

/-- A concrete retrieval result with one in-gate and one out-of-gate pair. -/
def rawPairs : List (Doc × ℚ) := [(docHours, mkRat 1 5), (docPark, mkRat 7 10)]

/-- A concrete two-block evidence list. -/
def resultsTwo : List Doc := [docHours, docPark]

/-- An answer citing blocks 1 and 3. -/
def ansCite13 : List Char := "Open 9 to 5 [1] and [3].".toList

/-- An answer citing nothing parseable. -/
def ansNoCite : List Char := "We are closed on holidays.".toList

/-- A completion beginning with the misspelled refusal phrase "I don't knw",
which is not the one misspelling the server repairs. -/
def mistypedAnswer : List Char := "I don".toList ++ [apostropheChar] ++ "t knw. [1]".toList

/-- A completion collaborator producing `mistypedAnswer`. -/
def mistypedLlm : List Char → List Char := fun _ => mistypedAnswer

/-- A completion beginning with the exact misspelling "I don't now". -/
def typoAnswer : List Char := typoList ++ ". [1]".toList

/-- A completion collaborator producing `typoAnswer`. -/
def typoLlm : List Char → List Char := fun _ => typoAnswer

/-- A completion collaborator citing blocks 1 and 2. -/
def citeBothLlm : List Char → List Char := fun _ => "See [1] and [2].".toList

/-- Membership is preserved by the insertion step of the distance sort. -/
theorem mem_insertByDist (x : Doc × ℚ) :
    ∀ (l : List (Doc × ℚ)) (a : Doc × ℚ), a ∈ insertByDist x l ↔ a = x ∨ a ∈ l := by
  intro l
  induction l with
  | nil => intro a; simp [insertByDist]
  | cons y ys ih =>
    intro a
    rw [insertByDist]
    split
    · simp [List.mem_cons]
    · simp only [List.mem_cons, ih]
      tauto

/-- The distance sort permutes the retrieved pairs: membership is unchanged. -/
theorem mem_sortByDist : ∀ (l : List (Doc × ℚ)) (a : Doc × ℚ), a ∈ sortByDist l ↔ a ∈ l := by
  intro l
  induction l with
  | nil => intro a; simp [sortByDist]
  | cons y ys ih =>
    intro a
    rw [sortByDist, mem_insertByDist]
    simp [List.mem_cons, ih]

/-- Executable prefix test versus the append characterization. -/
theorem isPrefixOf_iff : ∀ (w s : List Char), w.isPrefixOf s = true ↔ ∃ t, s = w ++ t := by
  intro w
  induction w with
  | nil => intro s; simp [List.isPrefixOf]
  | cons c w ih =>
    intro s
    cases s with
    | nil => simp [List.isPrefixOf]
    | cons d t =>
      simp only [List.isPrefixOf, Bool.and_eq_true, beq_iff_eq, ih, List.cons_append,
        List.cons.injEq]
      constructor
      · rintro ⟨rfl, u, rfl⟩
        exact ⟨u, rfl, rfl⟩
      · rintro ⟨u, rfl, rfl⟩
        exact ⟨rfl, u, rfl⟩

/-- A list is a prefix of itself extended by anything. -/
theorem isPrefixOf_append_self (a b : List Char) : a.isPrefixOf (a ++ b) = true :=
  (isPrefixOf_iff a (a ++ b)).2 ⟨b, rfl⟩


/-- Characterization of the whole-word scanner: it accepts exactly the strings
splitting as `pre ++ w ++ post` with word boundaries on both sides of `w`. -/
theorem hasWholeWordAux_iff (w : List Char) :
    ∀ (s : List Char) (prev : Option Char),
      hasWholeWordAux w prev s = true ↔
        ∃ pre post, s = pre ++ w ++ post ∧ boundaryOk (prevOf prev pre) = true ∧
          boundaryOk post.head? = true := by
  intro s
  induction s with
  | nil =>
    intro prev
    rw [hasWholeWordAux, Bool.and_eq_true, matchesHere, Bool.and_eq_true]
    constructor
    · rintro ⟨hb, hp, _⟩
      obtain ⟨t, ht⟩ := (isPrefixOf_iff w []).1 hp
      have hw : w = [] := by
        cases w
        · rfl
        · simp at ht
      subst hw
      exact ⟨[], [], by simp [ht.symm], by simpa [prevOf] using hb, by simp [boundaryOk]⟩
    · rintro ⟨pre, post, hsplit, h1, h2⟩
      have hpre : pre = [] := by
        cases pre
        · rfl
        · simp at hsplit
      subst hpre
      have hw : w = [] := by
        cases w
        · rfl
        · simp at hsplit
      subst hw
      refine ⟨by simpa [prevOf] using h1, ?_, by simp [boundaryOk]⟩
      simp [List.isPrefixOf]
  | cons c rest ih =>
    intro prev
    rw [hasWholeWordAux, Bool.or_eq_true, Bool.and_eq_true]
    constructor
    · rintro (⟨hb, hm⟩ | hrec)
      · rw [matchesHere, Bool.and_eq_true] at hm
        obtain ⟨hp, hb2⟩ := hm
        obtain ⟨t, ht⟩ := (isPrefixOf_iff w (c :: rest)).1 hp
        refine ⟨[], t, by simpa using ht, by simpa [prevOf] using hb, ?_⟩
        rw [ht, List.drop_left] at hb2
        exact hb2
      · obtain ⟨pre, post, hsplit, h1, h2⟩ := (ih (some c)).1 hrec
        refine ⟨c :: pre, post, by simp [hsplit], ?_, h2⟩
        simpa [prevOf] using h1
    · rintro ⟨pre, post, hsplit, h1, h2⟩
      cases pre with
      | nil =>
        left
        simp only [List.nil_append] at hsplit
        refine ⟨by simpa [prevOf] using h1, ?_⟩
        rw [matchesHere, Bool.and_eq_true]
        refine ⟨(isPrefixOf_iff w (c :: rest)).2 ⟨post, hsplit⟩, ?_⟩
        rw [hsplit, List.drop_left]
        exact h2
      | cons c2 pre2 =>
        right
        rw [List.cons_append, List.cons_append] at hsplit
        injection hsplit with hc hrest
        subst hc
        apply (ih (some c)).2
        exact ⟨pre2, post, hrest, by simpa [prevOf] using h1, h2⟩

/-- A space is not a word character, so it realizes a word boundary. -/
theorem boundaryOk_space : boundaryOk (some ' ') = true := by decide

/-- A whole-word match survives appending text that is empty or starts with a
space (as every synonym expansion does). -/
theorem hasWholeWord_append (w s t : List Char) (h : hasWholeWord w s = true)
    (ht : t = [] ∨ ∃ t2, t = ' ' :: t2) : hasWholeWord w (s ++ t) = true := by
  rw [hasWholeWord] at h ⊢
  obtain ⟨pre, post, hsplit, h1, h2⟩ := (hasWholeWordAux_iff w s none).1 h
  apply (hasWholeWordAux_iff w (s ++ t) none).2
  refine ⟨pre, post ++ t, by rw [hsplit]; simp, h1, ?_⟩
  cases post with
  | nil =>
    rcases ht with rfl | ⟨t2, rfl⟩
    · simpa using h2
    · simpa using boundaryOk_space
  | cons p ps => simpa using h2

/-- An alternation match survives appending text that is empty or starts with
a space. -/
theorem anyWholeWord_append (ws : List (List Char)) (s t : List Char)
    (h : anyWholeWord ws s = true) (ht : t = [] ∨ ∃ t2, t = ' ' :: t2) :
    anyWholeWord ws (s ++ t) = true := by
  rw [anyWholeWord, List.any_eq_true] at h ⊢
  obtain ⟨w, hw, hww⟩ := h
  exact ⟨w, hw, hasWholeWord_append w s t hww ht⟩

/-- The alternative "this one" of the deictic pattern is redundant: any match
of "this one" is in particular a whole-word match of "this". -/
theorem hasWholeWord_thisOne (s : List Char) (h : hasWholeWord thisOneW s = true) :
    hasWholeWord thisW s = true := by
  rw [hasWholeWord] at h ⊢
  obtain ⟨pre, post, hsplit, h1, h2⟩ := (hasWholeWordAux_iff thisOneW s none).1 h
  apply (hasWholeWordAux_iff thisW s none).2
  have hsplit2 : thisOneW = thisW ++ (' ' :: "one".toList) := by decide
  refine ⟨pre, (' ' :: "one".toList) ++ post, ?_, h1, by simpa using boundaryOk_space⟩
  rw [hsplit, hsplit2]
  simp

/-- The six-way deictic alternation of the source regex is equivalent to the
five words named by the specification. -/
theorem deictic_iff (s : List Char) :
    anyWholeWord deicticWords s = true ↔ deictic5 s = true := by
  have hred := hasWholeWord_thisOne s
  rw [deicticWords, deictic5, anyWholeWord, anyWholeWord]
  simp only [List.any_cons, List.any_nil, Bool.or_eq_true, Bool.or_false]
  constructor
  · rintro (h | h | h | h | h | h) <;> tauto
  · rintro (h | h | h | h | h) <;> tauto

/-- One conditional append step of the expander preserves the shape
"original text followed by a possibly-empty space-led suffix". -/
theorem spaceExtStep (q out a : List Char) (c : Prop) [Decidable c]
    (h : ∃ r, out = q ++ r ∧ (r = [] ∨ ∃ r2, r = ' ' :: r2))
    (ha : ∃ a2, a = ' ' :: a2) :
    ∃ r, (if c then out ++ a else out) = q ++ r ∧ (r = [] ∨ ∃ r2, r = ' ' :: r2) := by
  split
  · obtain ⟨r, hr, hcase⟩ := h
    obtain ⟨a2, ha2⟩ := ha
    rcases hcase with rfl | ⟨r2, rfl⟩
    · exact ⟨a, by simp [hr], Or.inr ⟨a2, ha2⟩⟩
    · exact ⟨(' ' :: r2) ++ a, by simp [hr], Or.inr ⟨r2 ++ a, by simp⟩⟩
  · exact h

/-- The expander only appends: its output is the unchanged question followed
by a possibly-empty suffix that starts with a space. -/
theorem expand_split (q : List Char) :
    ∃ r, expandQuestionSynonyms q = q ++ r ∧ (r = [] ∨ ∃ r2, r = ' ' :: r2) := by
  simp only [expandQuestionSynonyms]
  refine spaceExtStep q _ hoursApp _
    (spaceExtStep q _ carApp _
      (spaceExtStep q _ weekendApp _
        (spaceExtStep q _ sunApp _
          (spaceExtStep q _ satApp _ ⟨[], by simp, Or.inl rfl⟩
            ⟨"saturday weekend".toList, by decide⟩)
          ⟨"sunday weekend".toList, by decide⟩)
        ⟨"saturday sunday".toList, by decide⟩)
      ⟨"parking lot".toList, by decide⟩)
    ⟨"hours open opening times".toList, by decide⟩

/-- Lowercasing keeps a space a space. -/
theorem lowerChar_space : lowerChar ' ' = ' ' := by decide

/-- Every synonym trigger that fires on a question still fires on the expanded
question. -/
theorem ruleTest_mono (q : List Char) (i : Nat) (h : ruleTest i q = true) :
    ruleTest i (expandQuestionSynonyms q) = true := by
  obtain ⟨r, hr, hcase⟩ := expand_split q
  have hlow : lowerList (expandQuestionSynonyms q) = lowerList q ++ lowerList r := by
    rw [hr, lowerList, lowerList, lowerList, List.map_append]
  have hspace : lowerList r = [] ∨ ∃ r2, lowerList r = ' ' :: r2 := by
    rcases hcase with rfl | ⟨r2, rfl⟩
    · exact Or.inl rfl
    · exact Or.inr ⟨lowerList r2, by rw [lowerList, lowerList, List.map_cons, lowerChar_space]⟩
  have happ : ∀ ws : List (List Char),
      anyWholeWord ws (lowerList q) = true →
        anyWholeWord ws (lowerList (expandQuestionSynonyms q)) = true := by
    intro ws hws
    rw [hlow]
    exact anyWholeWord_append ws _ _ hws hspace
  rcases i with _ | _ | _ | _ | _ | i
  · rw [ruleTest, trigSat] at h ⊢
    exact happ _ h
  · rw [ruleTest, trigSun] at h ⊢
    exact happ _ h
  · rw [ruleTest, trigWeekend] at h ⊢
    exact happ _ h
  · rw [ruleTest, trigCar] at h ⊢
    exact happ _ h
  · rw [ruleTest, trigHours] at h ⊢
    exact happ _ h
  · rw [ruleTest] at h
    exact absurd h (by simp)

/-- The seen-set filter only keeps elements of its input. -/
theorem mem_dedupGo :
    ∀ (seen : List (List Char)) (l : List SourceRef) (s : SourceRef),
      s ∈ dedupGo seen l → s ∈ l := by
  intro seen l
  induction l generalizing seen with
  | nil => intro s h; simp [dedupGo] at h
  | cons x rest ih =>
    intro s h
    rw [dedupGo] at h
    split at h
    · exact List.mem_cons_of_mem _ (ih _ _ h)
    · rcases List.mem_cons.1 h with rfl | h2
      · exact List.mem_cons_self _ _
      · exact List.mem_cons_of_mem _ (ih _ _ h2)

/-- Every survivor of the seen-set filter has a source outside `seen` and is
the first element of the input carrying its source filename. -/
theorem dedupGo_find :
    ∀ (seen : List (List Char)) (l : List SourceRef) (s : SourceRef),
      s ∈ dedupGo seen l →
        s.source ∉ seen ∧ l.find? (fun t => t.source == s.source) = some s := by
  intro seen l
  induction l generalizing seen with
  | nil => intro s h; simp [dedupGo] at h
  | cons x rest ih =>
    intro s h
    rw [dedupGo] at h
    split at h
    · rename_i hseen
      obtain ⟨hns, hfind⟩ := ih _ _ h
      have hne : (x.source == s.source) = false := by
        rw [beq_eq_false_iff_ne]
        intro hxs
        exact hns (hxs ▸ hseen)
      refine ⟨hns, ?_⟩
      rw [List.find?, hne]
      exact hfind
    · rename_i hseen
      rcases List.mem_cons.1 h with rfl | h2
      · refine ⟨hseen, ?_⟩
        rw [List.find?, beq_self_eq_true]
      · obtain ⟨hns, hfind⟩ := ih _ _ h2
        have hnsrc : s.source ∉ seen := fun hx => hns (List.mem_cons_of_mem _ hx)
        have hne : (x.source == s.source) = false := by
          rw [beq_eq_false_iff_ne]
          intro hxs
          exact hns (hxs ▸ List.mem_cons_self _ _)
        refine ⟨hnsrc, ?_⟩
        rw [List.find?, hne]
        exact hfind

/-- The seen-set filter produces pairwise-distinct source filenames. -/
theorem dedupGo_nodup :
    ∀ (seen : List (List Char)) (l : List SourceRef),
      ((dedupGo seen l).map (fun s => s.source)).Nodup := by
  intro seen l
  induction l generalizing seen with
  | nil => simp [dedupGo]
  | cons x rest ih =>
    rw [dedupGo]
    split
    · exact ih _
    · rw [List.map_cons, List.nodup_cons]
      refine ⟨?_, ih _⟩
      intro hmem
      obtain ⟨s, hs, heq⟩ := List.mem_map.1 hmem
      obtain ⟨hns, _⟩ := dedupGo_find _ _ _ hs
      exact hns (heq ▸ List.mem_cons_self _ _)

/-- Ids assigned by the source numbering are the positions shifted by the
start index. -/
theorem mem_numberFrom :
    ∀ (i : Nat) (l : List Doc) (s : SourceRef),
      s ∈ numberFrom i l → i < s.id ∧ s.id ≤ i + l.length := by
  intro i l
  induction l generalizing i with
  | nil => intro s h; simp [numberFrom] at h
  | cons d rest ih =>
    intro s h
    rw [numberFrom] at h
    rcases List.mem_cons.1 h with rfl | h2
    · simp only [List.length_cons]
      omega
    · obtain ⟨h3, h4⟩ := ih (i + 1) s h2
      simp only [List.length_cons]
      omega

/-- Outside the empty-question and vagueness branches, the handler is the
distance-gated pipeline on the sorted retrieval pairs. -/
theorem askHandler_eq_gate (store : List Char → List (Doc × ℚ)) (llm : List Char → List Char)
    (q : List Char) (h0 : trimList q ≠ []) (h1 : isVagueQuestion (trimList q) = false) :
    askHandler store llm q =
      gateAndAnswer llm (trimList q)
        (sortByDist (store (expandQuestionSynonyms (trimList q)))) := by
  simp only [askHandler]
  rw [if_neg h0, if_neg (by simp [h1])]

/-- When the best pair passes the gate, the evidence computation is the
filtered, capped, projected list headed by the best document, and the fallback
branch is not taken. -/
theorem computeResults_pos (best : Doc × ℚ) (rest : List (Doc × ℚ)) (hb : best.2 ≤ Dmax) :
    computeResults (best :: rest) =
      best.1 :: ((rest.filter (fun p => p.2 ≤ Dmax)).take 2).map Prod.fst := by
  have h1 : (best :: rest).filter (fun p => p.2 ≤ Dmax) =
      best :: rest.filter (fun p => p.2 ≤ Dmax) :=
    List.filter_cons_of_pos (by simp [hb])
  simp only [computeResults, h1, topK, List.take_succ_cons, List.map_cons]

/-- Shape of any 200 response of the handler: the sources are empty (clarify
and refusal branches) or produced by the citation resolver on the final answer
text and some evidence list (answered branch). -/
theorem askHandler_ok_cases (store : List Char → List (Doc × ℚ)) (llm : List Char → List Char)
    (q : List Char) (ans : List Char) (srcs : List SourceRef)
    (h : askHandler store llm q = Response.ok ans srcs) :
    srcs = [] ∨ ∃ results, srcs = resolveSources ans results := by
  by_cases h0 : trimList q = []
  · simp [askHandler, h0] at h
  · by_cases h1 : isVagueQuestion (trimList q) = true
    · simp only [askHandler, if_neg h0, if_pos h1] at h
      injection h with h2 h3
      exact Or.inl h3.symm
    · have h1f : isVagueQuestion (trimList q) = false := by
        revert h1
        cases isVagueQuestion (trimList q) <;> simp
      rw [askHandler_eq_gate store llm q h0 h1f] at h
      rcases hs : sortByDist (store (expandQuestionSynonyms (trimList q))) with _ | ⟨best, rest⟩
      · rw [hs, gateAndAnswer] at h
        injection h with h2 h3
        exact Or.inl h3.symm
      · rw [hs, gateAndAnswer] at h
        by_cases hb : Dmax < best.2
        · rw [if_pos hb] at h
          injection h with h2 h3
          exact Or.inl h3.symm
        · rw [if_neg hb] at h
          injection h with h2 h3
          refine Or.inr ⟨computeResults (best :: rest), ?_⟩
          rw [← h3, h2]

/-- C1: for every request whose question is non-empty and passes the
vagueness guard, if every retrieved (chunk, distance) pair lies strictly
beyond the acceptance threshold Dmax = 0.55 (in particular if no pair is
returned), the handler returns the fixed refusal answer with an empty sources
list — and it does so for every completion collaborator `llm`, so no
completion call influences the outcome. -/
theorem refuse_when_no_near_evidence (store : List Char → List (Doc × ℚ))
    (llm : List Char → List Char) (q : List Char)
    (h0 : trimList q ≠ []) (h1 : isVagueQuestion (trimList q) = false)
    (h2 : ∀ p ∈ store (expandQuestionSynonyms (trimList q)), Dmax < p.2) :
    askHandler store llm q = Response.ok refuseMsg [] := by
  rw [askHandler_eq_gate store llm q h0 h1]
  rcases hs : sortByDist (store (expandQuestionSynonyms (trimList q))) with _ | ⟨best, rest⟩
  · rw [gateAndAnswer]
  · have hmem : best ∈ store (expandQuestionSynonyms (trimList q)) := by
      apply (mem_sortByDist _ _).1
      rw [hs]
      exact List.mem_cons_self _ _
    rw [gateAndAnswer, if_pos (h2 best hmem)]

/-- Witness for C1: the refusal theorem evaluated on a concrete far-away
corpus. -/
theorem refuse_when_no_near_evidence_witness :
    trimList qHours ≠ [] ∧ isVagueQuestion (trimList qHours) = false ∧
      askHandler farStore emptyLlm qHours = Response.ok refuseMsg [] :=
  ⟨by decide, by decide,
    refuse_when_no_near_evidence farStore emptyLlm qHours (by decide) (by decide) (by decide)⟩

/-- C2 counterexample: the question "what time does this facility open today"
is long, and by the server's own notion of distinguishing content
(`tokenizeMeaningful`) it carries plenty of it, yet `isVagueQuestion` flags it
vague — the guard fires on any whole-word deictic match, not only on matches
with no other distinguishing content, so the claimed characterization is
false for this input. -/
theorem vague_guard_counterexample :
    isVagueQuestion contentfulDeicticQ = true ∧ ¬ vagueClaim contentfulDeicticQ :=
  ⟨by decide, fun h => by
    rcases h with h | ⟨-, h2⟩
    · exact absurd h (by decide)
    · exact absurd h2 (by decide)⟩

/-- C2 (amended): the guard classifies a question as vague exactly when its
trimmed length is below 8 characters or the deictic whole-word pattern
("this", "that", "it", "here", "there") matches the lowercased trimmed text —
regardless of any other content; and every vague question yields the Clarify
terminal with the fixed clarification message and empty sources for every
vector index `store` and completion `llm`, so no retrieval is attempted. -/
theorem vague_characterization_and_clarify (q : List Char) :
    (isVagueQuestion q = true ↔
      ((trimList q).length < 8 ∨ deictic5 (lowerList (trimList q)) = true)) ∧
    ∀ (store : List Char → List (Doc × ℚ)) (llm : List Char → List Char),
      trimList q ≠ [] → isVagueQuestion (trimList q) = true →
        askHandler store llm q = Response.ok clarifyMsg [] := by
  constructor
  · simp only [isVagueQuestion]
    by_cases hlen : (trimList q).length < 8
    · simp [hlen]
    · rw [if_neg hlen, deictic_iff]
      simp [hlen]
  · intro store llm h0 h1
    simp only [askHandler]
    rw [if_neg h0, if_pos h1]

/-- Witness for C2 (amended): the clarify branch evaluated on the concrete
vague question "it". -/
theorem vague_characterization_witness :
    trimList vagueShortQ ≠ [] ∧
      askHandler nearStore emptyLlm vagueShortQ = Response.ok clarifyMsg [] :=
  ⟨by decide,
    (vague_characterization_and_clarify vagueShortQ).2 nearStore emptyLlm (by decide) (by decide)⟩

/-- C9 counterexample: on the question "busy on sat" only the saturday
trigger fires, but on its expansion "busy on sat saturday weekend" the
weekend trigger fires as well — the set of distinct triggers matching the
once-expanded string differs from the set matching the original question. -/
theorem expand_trigger_counterexample :
    firedTriggers (expandQuestionSynonyms busyQ) ≠ firedTriggers busyQ := by decide

/-- C9 (amended): expansion only appends terms after the unchanged original
text, and it is monotone on triggers — every trigger matching the question
still matches the expanded question; the trigger set of the expansion may
however be strictly larger, so re-expansion is not idempotent on trigger
sets. -/
theorem expand_monotone (q : List Char) :
    (∃ r, expandQuestionSynonyms q = q ++ r) ∧
    ∀ i, ruleTest i q = true → ruleTest i (expandQuestionSynonyms q) = true := by
  obtain ⟨r, hr, -⟩ := expand_split q
  exact ⟨⟨r, hr⟩, fun i h => ruleTest_mono q i h⟩

/-- Witness for C9 (amended): the saturday trigger fires on "busy on sat" and
still fires on its expansion. -/
theorem expand_monotone_witness :
    ruleTest 0 busyQ = true ∧ ruleTest 0 (expandQuestionSynonyms busyQ) = true :=
  ⟨by decide, (expand_monotone busyQ).2 0 (by decide)⟩

/-- C3: for every request that passes the distance gate (sorted retrieval
pairs headed by a pair within Dmax), the evidence list is non-empty, capped at
K, and every document in it comes from a retrieved pair whose distance is
within the acceptance threshold — the completion prompt is built from exactly
this list, so it never contains a chunk that failed the gate. -/
theorem evidence_within_gate (raw : List (Doc × ℚ)) (best : Doc × ℚ) (rest : List (Doc × ℚ))
    (hs : sortByDist raw = best :: rest) (hb : best.2 ≤ Dmax) :
    computeResults (best :: rest) ≠ [] ∧
    (computeResults (best :: rest)).length ≤ topK ∧
    ∀ doc ∈ computeResults (best :: rest), ∃ d, (doc, d) ∈ raw ∧ d ≤ Dmax := by
  have hres := computeResults_pos best rest hb
  refine ⟨by rw [hres]; exact List.cons_ne_nil _ _, ?_, ?_⟩
  · rw [hres]
    simp only [List.length_cons, List.length_map, topK]
    have := List.length_take_le 2 (rest.filter (fun p => p.2 ≤ Dmax))
    omega
  · intro doc hdoc
    rw [hres] at hdoc
    rcases List.mem_cons.1 hdoc with rfl | h2
    · refine ⟨best.2, ?_, hb⟩
      have hmem : best ∈ sortByDist raw := by
        rw [hs]
        exact List.mem_cons_self _ _
      simpa using (mem_sortByDist raw best).1 hmem
    · obtain ⟨pair, hpmem, hfst⟩ := List.mem_map.1 h2
      have hfil : pair ∈ rest.filter (fun p => p.2 ≤ Dmax) := List.mem_of_mem_take hpmem
      obtain ⟨hmem_rest, hple⟩ := List.mem_filter.1 hfil
      have hle : pair.2 ≤ Dmax := by simpa using hple
      have hmem_raw : pair ∈ raw := by
        apply (mem_sortByDist raw pair).1
        rw [hs]
        exact List.mem_cons_of_mem _ hmem_rest
      subst hfst
      exact ⟨pair.2, by simpa using hmem_raw, hle⟩

/-- Witness for C3: on a concrete retrieval with one in-gate and one
out-of-gate pair, the evidence is exactly the in-gate document. -/
theorem evidence_within_gate_witness :
    sortByDist rawPairs = (docHours, mkRat 1 5) :: [(docPark, mkRat 7 10)] ∧
      computeResults ((docHours, mkRat 1 5) :: [(docPark, mkRat 7 10)]) ≠ [] ∧
      computeResults ((docHours, mkRat 1 5) :: [(docPark, mkRat 7 10)]) = [docHours] :=
  ⟨by decide,
    (evidence_within_gate rawPairs (docHours, mkRat 1 5) [(docPark, mkRat 7 10)]
      (by decide) (by decide)).1,
    by decide⟩

/-- C10: the single-chunk fallback branch is unreachable — whenever the gate
check passes (the head of the sorted pairs is within Dmax), the filtered,
capped, projected list is non-empty, so the fallback condition
`results.length === 0 && pairs.length` is false and `computeResults` equals
the no-fallback expression. -/
theorem fallback_unreachable (raw : List (Doc × ℚ)) (best : Doc × ℚ) (rest : List (Doc × ℚ))
    (_hs : sortByDist raw = best :: rest) (hb : best.2 ≤ Dmax) :
    (((best :: rest).filter (fun p => p.2 ≤ Dmax)).take topK).map Prod.fst ≠ [] ∧
    computeResults (best :: rest) =
      (((best :: rest).filter (fun p => p.2 ≤ Dmax)).take topK).map Prod.fst := by
  have h1 : (best :: rest).filter (fun p => p.2 ≤ Dmax) =
      best :: rest.filter (fun p => p.2 ≤ Dmax) :=
    List.filter_cons_of_pos (by simp [hb])
  constructor
  · rw [h1]
    simp [topK]
  · rw [computeResults_pos best rest hb, h1]
    simp [topK, List.take_succ_cons]

/-- Witness for C10: the no-fallback equality evaluated on the concrete
retrieval result. -/
theorem fallback_unreachable_witness :
    computeResults ((docHours, mkRat 1 5) :: [(docPark, mkRat 7 10)]) =
      ((((docHours, mkRat 1 5) :: [(docPark, mkRat 7 10)]).filter
        (fun p => p.2 ≤ Dmax)).take topK).map Prod.fst :=
  (fallback_unreachable rawPairs (docHours, mkRat 1 5) [(docPark, mkRat 7 10)]
    (by decide) (by decide)).2

/-- C4: every source shown for an answered outcome carries an id in 1..N,
where N is the number of assembled evidence blocks — bracketed integers cited
outside that range are dropped by the resolver. -/
theorem cited_ids_in_range (answer : List Char) (results : List Doc) (s : SourceRef)
    (hmem : s ∈ resolveSources answer results) :
    1 ≤ s.id ∧ s.id ≤ results.length := by
  rw [resolveSources] at hmem
  split at hmem
  · simp at hmem
  · rw [dedupBySource] at hmem
    have hbase : s ∈ citationBase answer results := mem_dedupGo _ _ _ hmem
    have hall : s ∈ allSourcesOf results := by
      rw [citationBase] at hbase
      split at hbase
      · exact hbase
      · rw [citedOnlyOf] at hbase
        exact (List.mem_filter.1 hbase).1
    rw [allSourcesOf] at hall
    have hb := mem_numberFrom 0 results s hall
    omega

/-- Witness for C4, scenario D: the answer cites [1] and [3] against two
evidence blocks; index 3 is dropped and only block 1's source is kept, with
its id in range. -/
theorem cited_ids_in_range_witness :
    resolveSources ansCite13 resultsTwo = [⟨1, "faqs.txt".toList⟩] ∧
      (1 ≤ (SourceRef.mk 1 ("faqs.txt".toList)).id ∧
        (SourceRef.mk 1 ("faqs.txt".toList)).id ≤ resultsTwo.length) :=
  ⟨by decide, cited_ids_in_range ansCite13 resultsTwo ⟨1, "faqs.txt".toList⟩ (by decide)⟩

/-- C5: on a non-refusal answer, if intersecting the cited bracketed integers
with the valid ids 1..N leaves something, exactly that cited subset (after
filename dedup) becomes the sources; if the answer cites nothing parseable,
the resolver fails open and exposes the sources of all assembled evidence
blocks (after filename dedup). -/
theorem citation_fail_open (answer : List Char) (results : List Doc)
    (hpref : canonList.isPrefixOf answer = false) :
    (citedOnlyOf answer results ≠ [] →
      resolveSources answer results = dedupBySource (citedOnlyOf answer results)) ∧
    (extractCitations answer = [] →
      resolveSources answer results = dedupBySource (allSourcesOf results)) := by
  constructor
  · intro hne
    rw [resolveSources, if_neg (by simp [hpref]), citationBase, if_neg hne]
  · intro hnone
    have hempty : citedOnlyOf answer results = [] := by
      rw [citedOnlyOf, hnone]
      simp
    rw [resolveSources, if_neg (by simp [hpref]), citationBase, if_pos hempty]

/-- Witness for C5: a non-refusal answer with no parseable citation exposes
all evidence sources. -/
theorem citation_fail_open_witness :
    canonList.isPrefixOf ansNoCite = false ∧ extractCitations ansNoCite = [] ∧
      resolveSources ansNoCite resultsTwo = dedupBySource (allSourcesOf resultsTwo) ∧
      resolveSources ansNoCite resultsTwo =
        [⟨1, "faqs.txt".toList⟩, ⟨2, "parking.txt".toList⟩] :=
  ⟨by decide, by decide,
    (citation_fail_open ansNoCite resultsTwo (by decide)).2 (by decide), by decide⟩

/-- C6: refusal implies no sources — any 200 response of the handler whose
final answer text starts with (in particular, equals) the canonical refusal
phrase "I don't know" carries an empty sources list; the dedicated Refuse
branch returns exactly such an answer. -/
theorem refusal_empty_sources (store : List Char → List (Doc × ℚ))
    (llm : List Char → List Char) (q : List Char) (ans : List Char) (srcs : List SourceRef)
    (h : askHandler store llm q = Response.ok ans srcs)
    (hpref : canonList.isPrefixOf ans = true) : srcs = [] := by
  rcases askHandler_ok_cases store llm q ans srcs h with rfl | ⟨results, rfl⟩
  · rfl
  · rw [resolveSources, if_pos hpref]

/-- Witness for C6: a concrete refusal response (distance gate fails) whose
answer starts with the canonical phrase and whose sources are empty. -/
theorem refusal_empty_sources_witness :
    askHandler farStore emptyLlm qHours = Response.ok refuseMsg [] ∧
      canonList.isPrefixOf refuseMsg = true ∧ ([] : List SourceRef) = [] :=
  ⟨by decide, by decide,
    refusal_empty_sources farStore emptyLlm qHours refuseMsg [] (by decide) (by decide)⟩

/-- C7: the sources of any 200 response contain no two entries with the same
filename, and every entry the resolver keeps is the first element carrying its
filename in the pre-dedup citation list (evidence order). -/
theorem answered_sources_dedup (store : List Char → List (Doc × ℚ))
    (llm : List Char → List Char) (q : List Char) (ans : List Char) (srcs : List SourceRef)
    (h : askHandler store llm q = Response.ok ans srcs) :
    (srcs.map (fun s => s.source)).Nodup ∧
    ∀ (answer : List Char) (results : List Doc) (s : SourceRef),
      s ∈ resolveSources answer results →
        (citationBase answer results).find? (fun t => t.source == s.source) = some s := by
  constructor
  · rcases askHandler_ok_cases store llm q ans srcs h with rfl | ⟨results, rfl⟩
    · simp
    · rw [resolveSources]
      split
      · simp
      · rw [dedupBySource]
        exact dedupGo_nodup [] _
  · intro answer results s hmem
    rw [resolveSources] at hmem
    split at hmem
    · simp at hmem
    · rw [dedupBySource] at hmem
      exact (dedupGo_find [] _ s hmem).2

/-- Witness for C7: two cited evidence blocks share the file "faqs.txt"; the
response keeps exactly one entry for it — the first — and the map of sources
is duplicate-free. -/
theorem answered_sources_dedup_witness :
    askHandler dupStore citeBothLlm qHours =
      Response.ok ("See [1] and [2].".toList) [⟨1, "faqs.txt".toList⟩] ∧
      (([⟨1, "faqs.txt".toList⟩] : List SourceRef).map (fun s => s.source)).Nodup := by
  have h : askHandler dupStore citeBothLlm qHours =
      Response.ok ("See [1] and [2].".toList) [⟨1, "faqs.txt".toList⟩] := by decide
  exact ⟨h, (answered_sources_dedup dupStore citeBothLlm qHours _ _ h).1⟩

/-- C8 counterexample: the completion returns text beginning with the
misspelled refusal phrase "I don't knw" (one letter dropped from the
canonical phrase); the server repairs only the exact misspelling
"I don't now", so the answer is left as is and the sources list is NOT
empty — contradicting the claim that any near-miss misspelling is normalized
before citation resolution. -/
theorem typo_repair_counterexample :
    askHandler nearStore mistypedLlm qHours =
      Response.ok mistypedAnswer [⟨1, "faqs.txt".toList⟩] ∧
      ([⟨1, "faqs.txt".toList⟩] : List SourceRef) ≠ [] :=
  ⟨by decide, by decide⟩

/-- C8 (amended): only the exact misspelling "I don't now" at the start of
the trimmed completion is normalized — it is rewritten to the canonical
phrase before the citation resolver runs, and the resulting response then
carries the repaired answer and an empty sources list. -/
theorem typo_normalization (store : List Char → List (Doc × ℚ))
    (llm : List Char → List Char) (q : List Char) (best : Doc × ℚ) (rest : List (Doc × ℚ))
    (h0 : trimList q ≠ []) (h1 : isVagueQuestion (trimList q) = false)
    (hs : sortByDist (store (expandQuestionSynonyms (trimList q))) = best :: rest)
    (hb : ¬ Dmax < best.2)
    (htypo : typoList.isPrefixOf
      (trimList (llm (buildUserPrompt (trimList q)
        (renderNumbered (computeResults (best :: rest)))))) = true) :
    askHandler store llm q =
      Response.ok
        (canonList ++
          (trimList (llm (buildUserPrompt (trimList q)
            (renderNumbered (computeResults (best :: rest)))))).drop typoList.length)
        [] := by
  rw [askHandler_eq_gate store llm q h0 h1, hs, gateAndAnswer, if_neg hb]
  have hnorm : normalizeAnswer (trimList (llm (buildUserPrompt (trimList q)
      (renderNumbered (computeResults (best :: rest)))))) =
      canonList ++
        (trimList (llm (buildUserPrompt (trimList q)
          (renderNumbered (computeResults (best :: rest)))))).drop typoList.length := by
    rw [normalizeAnswer, if_pos htypo]
  rw [hnorm, resolveSources, if_pos (isPrefixOf_append_self canonList _)]

/-- Witness for C8 (amended): a completion answering exactly
"I don't now. [1]" is normalized to "I don't know. [1]" and the response
carries no sources. -/
theorem typo_normalization_witness :
    askHandler nearStore typoLlm qHours = Response.ok (canonList ++ ". [1]".toList) [] := by
  have h := typo_normalization nearStore typoLlm qHours (docHours, mkRat 1 5) []
    (by decide) (by decide) (by decide) (by decide) (by decide)
  rw [h]
  decide
